import Mathlib

/-!
Shallow embedding of `dictionaryparser` (the `src/dictionaryparser/parser`
module, the fully developed variant of the parser) in Lean 4.

Python strings are modelled as `List Char`; Python `dict` values produced by
`Definition.to_dict` are modelled as association lists over a small value
type.  Fatal process exits (`_die`) and uncaught `IndexError`s are modelled
as `Except` errors.
-/

namespace DictionaryParser

/-- Whitespace characters stripped by Python `str.strip()` (the ASCII part of
`str.isspace`, which is all the source data can contain). -/
def pyIsSpace (c : Char) : Bool :=
  c == ' ' || c == '\t' || c == '\n' || c == '\r' || c == '\x0b' || c == '\x0c'

/-- Python `str.lstrip()`. -/
def lstrip (s : List Char) : List Char := s.dropWhile pyIsSpace

/-- Python `str.rstrip()`. -/
def rstrip (s : List Char) : List Char := (s.reverse.dropWhile pyIsSpace).reverse

/-- Python `str.strip()`. -/
def strip (s : List Char) : List Char := rstrip (lstrip s)

/-- Python `str.lower()` on one character, modelled for ASCII plus the
special letters of the heading alphabet (ï ö ä æ), which is all the
membership test against the alphabet can distinguish. -/
def pyToLower (c : Char) : Char :=
  if 65 ≤ c.toNat && c.toNat ≤ 90 then Char.ofNat (c.toNat + 32)
  else if c = 'Ï' then 'ï'
  else if c = 'Ö' then 'ö'
  else if c = 'Ä' then 'ä'
  else if c = 'Æ' then 'æ'
  else c

/-- Index of the first occurrence of `needle` in the haystack, as scanned by
Python `str.find` / the `in` operator. -/
def findSub (needle : List Char) : List Char → Option Nat
  | [] => if needle.isEmpty then some 0 else none
  | c :: t =>
    if needle.isPrefixOf (c :: t) then some 0
    else (findSub needle t).map (· + 1)

/-- Python `s.split(sep, maxsplit=1)` when it yields two pieces; `none`
models the `ValueError` path of unpacking a one-element split. -/
def splitFirst (sep s : List Char) : Option (List Char × List Char) :=
  match findSub sep s with
  | none => none
  | some i => some (s.take i, s.drop (i + sep.length))

/-- Worker for `splitAll`, scanning left to right with an accumulator for
the current piece (kept reversed).  The fuel argument only makes the
recursion structural: every step consumes at least one character of `s`,
so with fuel `s.length + 1` the zero-fuel case is never reached. -/
def splitAllAux (sep : List Char) : Nat → List Char → List Char → List (List Char)
  | 0, acc, _ => [acc.reverse]
  | _ + 1, acc, [] => [acc.reverse]
  | fuel + 1, acc, c :: t =>
    if sep.isPrefixOf (c :: t) then
      acc.reverse :: splitAllAux sep fuel [] (t.drop (sep.length - 1))
    else
      splitAllAux sep fuel (c :: acc) t

/-- Python `s.split(sep)` with a non-empty separator and no `maxsplit`
(`"".split(sep) == [""]`). -/
def splitAll (sep s : List Char) : List (List Char) :=
  splitAllAux sep (s.length + 1) [] s

/-- `POS_TABLE` from the source: abbreviation → canonical part of speech. -/
def POS_TABLE : List (List Char × List Char) :=
  [("n.".data, "noun".data),
   ("v.".data, "verb".data),
   ("aff.".data, "affix".data),
   ("irr.v.".data, "irregular verb".data),
   ("num.".data, "number".data),
   ("stv.".data, "stative_verb".data),
   ("adv.".data, "adverb".data),
   ("pron.".data, "pronoun".data),
   ("part.".data, "particle".data),
   ("conj.".data, "conjunction".data),
   ("hon.".data, "honorific".data),
   ("intj.".data, "interjection".data),
   ("inte.".data, "interrogative".data),
   ("prep.".data, "preposition".data),
   ("pos.".data, "postposition".data),
   ("phr.".data, "phrase".data),
   ("aux.".data, "auxiliary".data)]

/-- Python `POS_TABLE[k]` / `k in POS_TABLE` (lookup in the table). -/
def posLookup (k : List Char) : Option (List Char) :=
  (POS_TABLE.find? (fun p => p.1 == k)).map Prod.snd

/-- The `PartOfSpeech` `Literal` type annotation from the source, listed in
source order: the enumeration every `pos` is declared to belong to. -/
def PartOfSpeech : List (List Char) :=
  ["noun".data, "verb".data, "affix".data, "irregular_verb".data,
   "stative_verb".data, "adverb".data, "pronoun".data, "particle".data,
   "conjunction".data, "honorific".data, "interjection".data,
   "interrogative".data, "preposition".data, "postposition".data,
   "phrase".data, "auxiliary".data, "number".data]

/-- The `Definition` dataclass of the parser module. -/
structure Definition where
  word : List Char
  pos : List Char
  word_class : List Char
  definition : List Char
  notes : List (List Char)
  is_derived_term : Bool
  parent : List Char
  irregular_inflections : List (List Char)
  deriving Repr, DecidableEq

/-- The three shapes `next_line` can return
(`Definition | Note | list[Inflection]`). -/
inductive Classified where
  | defn : Definition → Classified
  | note : List Char → Classified
  | inflections : List (List Char) → Classified
  deriving Repr, DecidableEq

/-- The ways the parser can abort: indexing `line[0]` on an empty string,
`res[len(res) - 1]` on an empty result list (`IndexError`), and the
`_die` call on an unresolvable part-of-speech abbreviation. -/
inductive ParseErr where
  | indexEmptyLine : ParseErr
  | underflow : ParseErr
  | posNotFound : List Char → ParseErr
  deriving Repr, DecidableEq

/-- Is a token one of the word-class tokens `i.`, `ii.`, `iii.`? -/
def classTok (e : List Char) : Bool :=
  e == "i.".data || e == "ii.".data || e == "iii.".data

/-- One iteration of the modifier-token loop in `next_line`: the pair is
`(pos, wclass)`, a table key overwrites `pos`, else a class token
overwrites `wclass`. -/
def posStep (pw : List Char × List Char) (e : List Char) : List Char × List Char :=
  if (posLookup e).isSome then (e, pw.2)
  else if classTok e then (pw.1, e)
  else pw

/-- `Parser.next_line` from the source. -/
def next_line (line : List Char) : Except ParseErr Classified :=
  match line with
  | [] => .error .indexEmptyLine
  | c :: rest =>
    match splitFirst " // ".data (c :: rest) with
    | none =>
      let t := strip (c :: rest)
      if (findSub "inflections: ".data t).isSome then
        .ok (.inflections (splitAll ", ".data (t.drop ("inflections: ".data.length))))
      else
        .ok (.note t)
    | some (lhs, rhs) =>
      let toks := splitAll " ".data (strip lhs)
      let pw := toks.tail.foldl posStep ([], [])
      match posLookup pw.1 with
      | none => .error (.posNotFound (c :: rest))
      | some p =>
        .ok (.defn { word := toks.headD [], pos := p, word_class := pw.2,
                     definition := rhs, notes := [],
                     is_derived_term := c == ' ' || c == '\t',
                     parent := [], irregular_inflections := [] })

/-- The heading alphabet string of the source,
`"abcdefghijklmnopqrstuvwxyz'ïöäæ"` (apostrophe written as its code point). -/
def alphabet : List Char :=
  "abcdefghijklmnopqrstuvwxyz".data ++ [Char.ofNat 39] ++ "ïöäæ".data

/-- `line[0].strip().lower() in alphabet`: stripping a whitespace character
yields the empty string, and the empty string is a substring of every
string, so the test is vacuously true for whitespace first characters. -/
def headFirstCheck (c : Char) : Bool :=
  if pyIsSpace c then true else alphabet.contains (pyToLower c)

/-- The `is_heading` test of `Parser.parse` (only ever evaluated on
non-empty lines). -/
def is_heading : List Char → Bool
  | [] => false
  | c :: rest => headFirstCheck c && decide ((strip (c :: rest)).length ≤ 4)

/-- The while-loop of `Parser.parse`, with the accumulating result list made
explicit. -/
def parseLinesAux : List (List Char) → List Definition → Except ParseErr (List Definition)
  | [], res => .ok res
  | line :: rest, res =>
    if line = [] then parseLinesAux rest res
    else if is_heading line then parseLinesAux rest res
    else
      match next_line line with
      | .error e => .error e
      | .ok (.note n) =>
        match res.getLast? with
        | none => .error .underflow
        | some prev =>
          parseLinesAux rest (res.dropLast ++ [{ prev with notes := prev.notes ++ [n] }])
      | .ok (.defn d) =>
        if d.is_derived_term then
          match res.getLast? with
          | none => .error .underflow
          | some prev => parseLinesAux rest (res ++ [{ d with parent := prev.word }])
        else
          parseLinesAux rest (res ++ [d])
      | .ok (.inflections xs) =>
        match res.getLast? with
        | none => .error .underflow
        | some prev =>
          parseLinesAux rest (res.dropLast ++ [{ prev with irregular_inflections := xs }])

/-- `Parser.parse`: split the file on newlines and run the loop. -/
def parse (file : List Char) : Except ParseErr (List Definition) :=
  parseLinesAux (splitAll "\n".data file) []

/-- The modifier tokens (`rem` in the source) of an entry line: everything
after the headword on the left-hand side of the `" // "` split. -/
def modTokens (line : List Char) : List (List Char) :=
  match splitFirst " // ".data line with
  | none => []
  | some (lhs, _) => (splitAll " ".data (strip lhs)).tail

/-- The last word-class token among a token list (empty if none): the
specification's reading of the scan-in-order, last-match-wins loop. -/
def lastClassTok (toks : List (List Char)) : List Char :=
  toks.foldl (fun acc e => if classTok e then e else acc) []

/-- Values stored in the plain `dict` emitted by `Definition.to_dict`. -/
inductive PyVal where
  | s : List Char → PyVal
  | b : Bool → PyVal
  | ls : List (List Char) → PyVal
  deriving Repr, DecidableEq

/-- `Definition.to_dict` from the source, as an ordered association list. -/
def to_dict (d : Definition) : List (List Char × PyVal) :=
  [("word".data, .s d.word),
   ("pos".data, .s d.pos),
   ("word_class".data, .s d.word_class),
   ("definition".data, .s d.definition),
   ("notes".data, .ls d.notes),
   ("is_derived_term".data, .b d.is_derived_term),
   ("parent".data, .s d.parent),
   ("irregular_inflections".data, .ls d.irregular_inflections)]

/-- Python `d[k]` on the modelled dict. -/
def dictGet (dd : List (List Char × PyVal)) (k : List Char) : Option PyVal :=
  (dd.find? (fun p => p.1 == k)).map Prod.snd

/-- `Definition.from_dict` from the source: eight keyed lookups feeding the
constructor (`none` models a `KeyError` or an ill-typed value). -/
def from_dict (dd : List (List Char × PyVal)) : Option Definition :=
  match dictGet dd "word".data, dictGet dd "pos".data,
        dictGet dd "word_class".data, dictGet dd "definition".data,
        dictGet dd "notes".data, dictGet dd "is_derived_term".data,
        dictGet dd "parent".data, dictGet dd "irregular_inflections".data with
  | some (.s w), some (.s p), some (.s wc), some (.s df),
    some (.ls ns), some (.b idt), some (.s par), some (.ls infl) =>
    some { word := w, pos := p, word_class := wc, definition := df,
           notes := ns, is_derived_term := idt, parent := par,
           irregular_inflections := infl }
  | _, _, _, _, _, _, _, _ => none

deriving instance DecidableEq for Except

theorem findSub_some_of_pref (needle hay : List Char)
    (h : needle.isPrefixOf hay = true) : findSub needle hay = some 0 := by
  cases hay with
  | nil =>
    cases needle with
    | nil => rfl
    | cons a t => exact absurd h (by simp [List.isPrefixOf])
  | cons c t => rw [findSub, if_pos h]

theorem classTok_eq (e : List Char) (h : classTok e = true) :
    e = "i.".data ∨ e = "ii.".data ∨ e = "iii.".data := by
  simpa [classTok, or_assoc] using h

theorem posLookup_of_classTok (e : List Char) (h : classTok e = true) :
    posLookup e = none := by
  rcases classTok_eq e h with h1 | h1 | h1 <;> subst h1 <;> decide

theorem posStep_snd (pw : List Char × List Char) (e : List Char) :
    (posStep pw e).2 = if classTok e then e else pw.2 := by
  unfold posStep
  by_cases hs : (posLookup e).isSome
  · have hc : classTok e = false := by
      by_contra hcc
      rw [posLookup_of_classTok e (by simpa using hcc)] at hs
      simp at hs
    simp [hs, hc]
  · by_cases hc : classTok e <;> simp [hs, hc]

theorem foldl_posStep_snd (toks : List (List Char)) (pw : List Char × List Char) :
    (toks.foldl posStep pw).2 =
      toks.foldl (fun acc e => if classTok e then e else acc) pw.2 := by
  induction toks generalizing pw with
  | nil => rfl
  | cons e t ih =>
    simp only [List.foldl_cons]
    rw [ih (posStep pw e), posStep_snd]

theorem foldl_classAcc_mem (toks : List (List Char)) (w : List Char)
    (hw : w ∈ [([] : List Char), "i.".data, "ii.".data, "iii.".data]) :
    toks.foldl (fun acc e => if classTok e then e else acc) w ∈
      [([] : List Char), "i.".data, "ii.".data, "iii.".data] := by
  induction toks generalizing w with
  | nil => exact hw
  | cons e t ih =>
    simp only [List.foldl_cons]
    by_cases hc : classTok e = true
    · rw [if_pos hc]
      exact ih e (by rcases classTok_eq e hc with h1 | h1 | h1 <;> subst h1 <;> decide)
    · rw [if_neg hc]
      exact ih w hw

theorem foldl_posStep_fst (toks : List (List Char))
    (h : ∀ t ∈ toks, posLookup t = none) (pw : List Char × List Char) :
    (toks.foldl posStep pw).1 = pw.1 := by
  induction toks generalizing pw with
  | nil => rfl
  | cons e t ih =>
    simp only [List.foldl_cons]
    rw [ih (fun x hx => h x (List.mem_cons_of_mem _ hx)) (posStep pw e)]
    have he : posLookup e = none := h e (List.mem_cons_self _ _)
    unfold posStep
    rw [he]
    by_cases hc : classTok e <;> simp [hc]

theorem next_line_cons_ne_emptyErr (c : Char) (rest : List Char) :
    next_line (c :: rest) ≠ .error .indexEmptyLine := by
  rw [next_line]
  split
  · dsimp only
    split <;> simp
  · dsimp only
    split <;> simp

theorem next_line_noPos (line : List Char)
    (hdelim : (findSub " // ".data line).isSome = true)
    (hnores : ∀ t ∈ modTokens line, posLookup t = none) :
    next_line line = .error (.posNotFound line) := by
  obtain ⟨c, r, rfl⟩ : ∃ c r, line = c :: r := by
    cases line with
    | nil => exact absurd hdelim (by decide)
    | cons c r => exact ⟨c, r, rfl⟩
  obtain ⟨i, hi⟩ : ∃ i, findSub " // ".data (c :: r) = some i := by
    cases hf : findSub " // ".data (c :: r) with
    | none => rw [hf] at hdelim; simp at hdelim
    | some i => exact ⟨i, rfl⟩
  have hs : splitFirst " // ".data (c :: r) =
      some ((c :: r).take i, (c :: r).drop (i + " // ".data.length)) := by
    rw [splitFirst, hi]
  have hrem : modTokens (c :: r) =
      (splitAll " ".data (strip ((c :: r).take i))).tail := by
    rw [modTokens, hs]
  rw [hrem] at hnores
  rw [next_line, hs]
  dsimp only
  rw [foldl_posStep_fst _ hnores ([], [])]
  rfl

/-- Each step of the parse loop either fails with an error other than the
empty-line index error, or proceeds to the remaining lines with some
updated result list. -/
theorem parseLinesAux_cons (l : List Char) (rest : List (List Char))
    (res : List Definition) :
    (∃ e, e ≠ ParseErr.indexEmptyLine ∧ parseLinesAux (l :: rest) res = .error e) ∨
      (∃ res2, parseLinesAux (l :: rest) res = parseLinesAux rest res2) := by
  rw [parseLinesAux]
  by_cases h1 : l = []
  · rw [if_pos h1]
    exact Or.inr ⟨res, rfl⟩
  · rw [if_neg h1]
    by_cases h2 : is_heading l
    · rw [if_pos h2]
      exact Or.inr ⟨res, rfl⟩
    · rw [if_neg h2]
      obtain ⟨c, r, rfl⟩ : ∃ c r, l = c :: r := by
        cases l with
        | nil => exact absurd rfl h1
        | cons c r => exact ⟨c, r, rfl⟩
      cases hnl : next_line (c :: r) with
      | error e =>
        refine Or.inl ⟨e, ?_, rfl⟩
        intro he
        subst he
        exact next_line_cons_ne_emptyErr c r hnl
      | ok cl =>
        cases cl with
        | note n =>
          cases hg : res.getLast? with
          | none => exact Or.inl ⟨.underflow, by simp, rfl⟩
          | some prev => exact Or.inr ⟨_, rfl⟩
        | defn d =>
          obtain ⟨w, p, wc, df, ns, idt, par, infl⟩ := d
          cases idt with
          | true =>
            cases hg : res.getLast? with
            | none => exact Or.inl ⟨.underflow, by simp, rfl⟩
            | some prev => exact Or.inr ⟨_, rfl⟩
          | false => exact Or.inr ⟨_, rfl⟩
        | inflections xs =>
          cases hg : res.getLast? with
          | none => exact Or.inl ⟨.underflow, by simp, rfl⟩
          | some prev => exact Or.inr ⟨_, rfl⟩

theorem parseLinesAux_never_emptyErr (lines : List (List Char)) :
    ∀ res, parseLinesAux lines res ≠ .error .indexEmptyLine := by
  induction lines with
  | nil => intro res h; simp [parseLinesAux] at h
  | cons l rest ih =>
    intro res h
    rcases parseLinesAux_cons l rest res with ⟨e, hne, heq⟩ | ⟨res2, heq⟩
    · rw [heq] at h
      injection h with h1
      exact hne h1
    · rw [heq] at h
      exact ih res2 h

/-- C1 counterexample: the line `"  ab"` starts with a space (a continuation
line), yet `is_heading` is true for it, so `Parser.parse` discards it as a
section heading: parsing `"x n. // y\n  ab"` leaves the first entry's notes
empty instead of classifying `"  ab"` as a note.  This refutes the claim
that a continuation line never counts as a heading and always reaches
classification. -/
theorem C1_counterexample :
    "  ab".data.head? = some ' ' ∧ is_heading "  ab".data = true ∧
      parse "x n. // y\n  ab".data =
        .ok [{ word := "x".data, pos := "noun".data, word_class := [],
               definition := "y".data, notes := [], is_derived_term := false,
               parent := [], irregular_inflections := [] }] := by
  refine ⟨rfl, by decide, rfl⟩

/-- C1 amended: for a continuation line (first character a space or a tab),
the heading test degenerates to the length test alone — stripping the first
character yields the empty string, which is vacuously a substring of the
alphabet — so a continuation line is discarded as a heading exactly when its
trimmed length is at most 4, and reaches classification otherwise. -/
theorem C1_amended (c : Char) (rest : List Char) (h : c = ' ' ∨ c = '\t') :
    is_heading (c :: rest) = decide ((strip (c :: rest)).length ≤ 4) := by
  rcases h with h | h <;> subst h <;>
    simp [is_heading, headFirstCheck, pyIsSpace]

/-- C1 witness: the amended statement evaluated on the concrete continuation
line `"  ab"`, whose trimmed length is 2. -/
theorem C1_amended_witness :
    (' ' = ' ' ∨ ' ' = '\t') ∧
      is_heading (' ' :: " ab".data) = decide ((strip (' ' :: " ab".data)).length ≤ 4) :=
  ⟨Or.inl rfl, C1_amended ' ' " ab".data (Or.inl rfl)⟩

/-- C2 counterexample: the line `"see inflections: none"` does not begin
with `"inflections: "` (so the claim says it must classify as a Note), but
`next_line` classifies it as an InflectionList, because the source tests
substring containment, then blindly drops the first 13 characters. -/
theorem C2_counterexample :
    "inflections: ".data.isPrefixOf (strip "see inflections: none".data) = false ∧
      next_line "see inflections: none".data =
        .ok (.inflections ["ns: none".data]) := by
  refine ⟨by decide, rfl⟩

/-- C3 counterexample: classifying `"awa n. // water"` does NOT produce
definition `" water"`: the four-character delimiter `" // "` consumes the
space before `water`, so the definition is `"water"`. -/
theorem C3_counterexample :
    next_line "awa n. // water".data ≠
      .ok (.defn { word := "awa".data, pos := "noun".data, word_class := [],
                   definition := " water".data, notes := [],
                   is_derived_term := false, parent := [],
                   irregular_inflections := [] }) := by
  decide

/-- C3 amended: classifying `"awa n. // water"` yields word `"awa"`, pos
`"noun"`, empty word class, definition `"water"` (the split delimiter
`" // "` includes both surrounding spaces; the right-hand side is still not
left-trimmed beyond the delimiter), and `is_derived_term = false`. -/
theorem C3_amended :
    next_line "awa n. // water".data =
      .ok (.defn { word := "awa".data, pos := "noun".data, word_class := [],
                   definition := "water".data, notes := [],
                   is_derived_term := false, parent := [],
                   irregular_inflections := [] }) := rfl

/-- C4 code bug: the table maps `"irr.v."` to `"irregular verb"` (with a
space), a value outside the source's own `PartOfSpeech` literal enumeration
(which lists `"irregular_verb"`), so the entry produced for
`"lau irr.v. // to exist"` carries a pos outside the declared enumeration. -/
theorem C4_bug :
    next_line "lau irr.v. // to exist".data =
      .ok (.defn { word := "lau".data, pos := "irregular verb".data,
                   word_class := [], definition := "to exist".data,
                   notes := [], is_derived_term := false, parent := [],
                   irregular_inflections := [] }) ∧
      posLookup "irr.v.".data = some "irregular verb".data ∧
      PartOfSpeech.contains "irregular verb".data = false := by
  refine ⟨rfl, rfl, by decide⟩

/-- C5 counterexample: classifying `"suma v. i. // to eat"` stores the word
class token with its trailing period, `"i."`, which is not an element of the
claimed value set `{i, ii, iii, ""}`. -/
theorem C5_counterexample :
    next_line "suma v. i. // to eat".data =
      .ok (.defn { word := "suma".data, pos := "verb".data,
                   word_class := "i.".data, definition := "to eat".data,
                   notes := [], is_derived_term := false, parent := [],
                   irregular_inflections := [] }) ∧
      ["i".data, "ii".data, "iii".data, ([] : List Char)].contains "i.".data = false := by
  refine ⟨rfl, by decide⟩

/-- C8 counterexample: the input `"a // "` contains the `" // "` delimiter
and its modifier tokens resolve to nothing in the table, yet the whole parse
does not abort: the line is first discarded as a section heading (trimmed
length 4, first character alphabetic), and `parse` returns an empty result
successfully. -/
theorem C8_counterexample :
    (findSub " // ".data "a // ".data).isSome = true ∧
      (∀ t ∈ modTokens "a // ".data, posLookup t = none) ∧
      parse "a // ".data = .ok [] := by
  refine ⟨by decide, by decide, rfl⟩

/-- C9: serialization round-trips losslessly — `from_dict (to_dict d)`
recovers every `Definition` `d` exactly, and the emitted key list is exactly
the field names of the dataclass, in declaration order. -/
theorem C9_roundtrip (d : Definition) :
    from_dict (to_dict d) = some d ∧
      (to_dict d).map Prod.fst =
        ["word".data, "pos".data, "word_class".data, "definition".data,
         "notes".data, "is_derived_term".data, "parent".data,
         "irregular_inflections".data] := by
  refine ⟨?_, rfl⟩
  cases d
  rfl

/-- C2 amended: for a non-empty raw line without the `" // "` delimiter,
classification returns an InflectionList if and only if the trimmed line
CONTAINS the substring `"inflections: "` (not only when it begins with it);
the first 13 characters of the trimmed line are dropped and the remainder is
split on `", "` — which, when the trimmed line does begin with the prefix,
is exactly stripping the prefix — and otherwise (no containment) the trimmed
line is returned as a Note. -/
theorem C2_amended (line : List Char) (hne : line ≠ [])
    (hnd : splitFirst " // ".data line = none) :
    ((∃ xs, next_line line = .ok (.inflections xs)) ↔
        (findSub "inflections: ".data (strip line)).isSome = true) ∧
      ("inflections: ".data.isPrefixOf (strip line) = true →
        next_line line = .ok (.inflections
          (splitAll ", ".data ((strip line).drop "inflections: ".data.length)))) ∧
      ((findSub "inflections: ".data (strip line)).isSome = false →
        next_line line = .ok (.note (strip line))) := by
  obtain ⟨c, r, rfl⟩ : ∃ c r, line = c :: r := by
    cases line with
    | nil => exact absurd rfl hne
    | cons c r => exact ⟨c, r, rfl⟩
  have hnl : next_line (c :: r) =
      if (findSub "inflections: ".data (strip (c :: r))).isSome then
        .ok (.inflections (splitAll ", ".data
          ((strip (c :: r)).drop "inflections: ".data.length)))
      else .ok (.note (strip (c :: r))) := by
    rw [next_line, hnd]
  by_cases hf : (findSub "inflections: ".data (strip (c :: r))).isSome = true
  · rw [hnl, if_pos hf]
    exact ⟨⟨fun _ => hf, fun _ => ⟨_, rfl⟩⟩, fun _ => rfl,
           fun hc => absurd hf (by simp [hc])⟩
  · rw [hnl, if_neg hf]
    refine ⟨⟨?_, fun hc => absurd hc hf⟩, ?_, fun _ => rfl⟩
    · rintro ⟨xs, hxs⟩
      simp at hxs
    · intro hp
      exact absurd (by rw [findSub_some_of_pref _ _ hp]; rfl) hf

/-- C2 witness: the amended statement evaluated on the line
`"inflections: a, b, c"`, which begins with the prefix. -/
theorem C2_amended_witness :
    (∃ xs, next_line "inflections: a, b, c".data = .ok (.inflections xs)) ↔
      (findSub "inflections: ".data (strip "inflections: a, b, c".data)).isSome = true :=
  (C2_amended "inflections: a, b, c".data (by decide) (by decide)).1

/-- C5 amended: every successfully classified Definition has a word class
drawn from `{"i.", "ii.", "iii.", ""}` — the class tokens keep their
trailing period — equal to the last class token among the modifier tokens
scanned in order (later matches overwrite earlier ones), or empty when no
class token is present. -/
theorem C5_amended (line : List Char) (d : Definition)
    (h : next_line line = .ok (.defn d)) :
    d.word_class ∈ [([] : List Char), "i.".data, "ii.".data, "iii.".data] ∧
      d.word_class = lastClassTok (modTokens line) := by
  obtain ⟨c, r, rfl⟩ : ∃ c r, line = c :: r := by
    cases line with
    | nil => rw [next_line] at h; exact absurd h (by simp)
    | cons c r => exact ⟨c, r, rfl⟩
  rw [next_line] at h
  split at h
  · dsimp only at h
    split at h <;> simp at h
  · rename_i lhs rhs heq
    dsimp only at h
    split at h
    · exact absurd h (by simp)
    · rename_i p hp
      have hd : d = { word := (splitAll " ".data (strip lhs)).headD [], pos := p,
                      word_class :=
                        ((splitAll " ".data (strip lhs)).tail.foldl posStep ([], [])).2,
                      definition := rhs, notes := [],
                      is_derived_term := c == ' ' || c == '\t',
                      parent := [], irregular_inflections := [] } := by
        injection h with h1
        injection h1 with h2
        exact h2.symm
      subst hd
      have hrem : modTokens (c :: r) = (splitAll " ".data (strip lhs)).tail := by
        rw [modTokens, heq]
      constructor
      · dsimp only
        rw [foldl_posStep_snd]
        exact foldl_classAcc_mem _ _ (by simp)
      · dsimp only
        rw [foldl_posStep_snd, hrem]
        rfl

/-- C5 witness: the amended statement evaluated on the concrete line
`"suma v. i. // to eat"`, whose last (only) class token is `"i."`. -/
theorem C5_amended_witness :
    "i.".data ∈ [([] : List Char), "i.".data, "ii.".data, "iii.".data] ∧
      "i.".data = lastClassTok (modTokens "suma v. i. // to eat".data) :=
  C5_amended "suma v. i. // to eat".data
    { word := "suma".data, pos := "verb".data, word_class := "i.".data,
      definition := "to eat".data, notes := [], is_derived_term := false,
      parent := [], irregular_inflections := [] } rfl

/-- C6: when a continuation line (a Note, an InflectionList, or a Definition
with `is_derived_term = true`) is classified while the result sequence is
still empty, the parse fails with the index/underflow error rather than
silently dropping the line. -/
theorem C6_underflow (line : List Char) (rest : List (List Char)) (c : Classified)
    (hne : line ≠ []) (hh : is_heading line = false)
    (hc : next_line line = .ok c)
    (hcont : (∃ n, c = .note n) ∨ (∃ xs, c = .inflections xs) ∨
             (∃ d, c = .defn d ∧ d.is_derived_term = true)) :
    parseLinesAux (line :: rest) [] = .error .underflow := by
  rcases hcont with ⟨n, rfl⟩ | ⟨xs, rfl⟩ | ⟨d, rfl, hd⟩
  · rw [parseLinesAux, if_neg hne, if_neg (by simp [hh]), hc]
    rfl
  · rw [parseLinesAux, if_neg hne, if_neg (by simp [hh]), hc]
    rfl
  · obtain ⟨w, p, wc, df, ns, idt, par, infl⟩ := d
    cases idt with
    | true =>
      rw [parseLinesAux, if_neg hne, if_neg (by simp [hh]), hc]
      rfl
    | false => exact absurd hd (by simp)

/-- C6 witness: the single note line `"hello"` (five characters, so not a
heading) with an empty result sequence underflows. -/
theorem C6_witness : parseLinesAux ["hello".data] [] = .error .underflow :=
  C6_underflow "hello".data [] (.note "hello".data) (by decide) (by decide) rfl
    (Or.inl ⟨"hello".data, rfl⟩)

/-- C7: a classified Definition with `is_derived_term = true` arriving when
the result sequence is non-empty gets its parent set to the word of the last
entry of the result sequence and is appended as a new, independent sibling
element of the result sequence. -/
theorem C7_derived (line : List Char) (rest : List (List Char)) (d : Definition)
    (res : List Definition) (prev : Definition)
    (hne : line ≠ []) (hh : is_heading line = false)
    (hc : next_line line = .ok (.defn d)) (hd : d.is_derived_term = true)
    (hlast : res.getLast? = some prev) :
    parseLinesAux (line :: rest) res =
      parseLinesAux rest (res ++ [{ d with parent := prev.word }]) := by
  obtain ⟨w, p, wc, df, ns, idt, par, infl⟩ := d
  cases idt with
  | true =>
    rw [parseLinesAux, if_neg hne, if_neg (by simp [hh]), hc, hlast]
    rfl
  | false => exact absurd hd (by simp)

/-- C7 witness: `"awa n. // water"` then the indented `"  awana n. // lake"`
produce two sibling entries, the second with parent `"awa"`. -/
theorem C7_witness :
    parseLinesAux ["  awana n. // lake".data]
        [{ word := "awa".data, pos := "noun".data, word_class := [],
           definition := "water".data, notes := [], is_derived_term := false,
           parent := [], irregular_inflections := [] }] =
      .ok [{ word := "awa".data, pos := "noun".data, word_class := [],
             definition := "water".data, notes := [], is_derived_term := false,
             parent := [], irregular_inflections := [] },
           { word := "awana".data, pos := "noun".data, word_class := [],
             definition := "lake".data, notes := [], is_derived_term := true,
             parent := "awa".data, irregular_inflections := [] }] :=
  (C7_derived "  awana n. // lake".data []
      { word := "awana".data, pos := "noun".data, word_class := [],
        definition := "lake".data, notes := [], is_derived_term := true,
        parent := [], irregular_inflections := [] }
      [{ word := "awa".data, pos := "noun".data, word_class := [],
         definition := "water".data, notes := [], is_derived_term := false,
         parent := [], irregular_inflections := [] }]
      { word := "awa".data, pos := "noun".data, word_class := [],
        definition := "water".data, notes := [], is_derived_term := false,
        parent := [], irregular_inflections := [] }
      (by decide) (by decide) rfl rfl rfl).trans rfl

/-- C8 amended: for every entry line (containing `" // "`) that is not
discarded as a section heading and whose modifier tokens contain no
abbreviation resolvable through the table, classification fails fatally
with a diagnostic carrying the offending raw line, and any parse whose
input contains that line yields an error — never a (partial) result
sequence. -/
theorem C8_amended (pre suf : List (List Char)) (line : List Char)
    (hdelim : (findSub " // ".data line).isSome = true)
    (hh : is_heading line = false)
    (hnores : ∀ t ∈ modTokens line, posLookup t = none) :
    next_line line = .error (.posNotFound line) ∧
      ∀ res, ∃ e, parseLinesAux (pre ++ line :: suf) res = .error e := by
  have hnl := next_line_noPos line hdelim hnores
  refine ⟨hnl, ?_⟩
  have hne : line ≠ [] := by
    intro h
    subst h
    exact absurd hdelim (by decide)
  induction pre with
  | nil =>
    intro res
    refine ⟨.posNotFound line, ?_⟩
    rw [List.nil_append, parseLinesAux, if_neg hne, if_neg (by simp [hh]), hnl]
  | cons l pre' ih =>
    intro res
    rcases parseLinesAux_cons l (pre' ++ line :: suf) res with ⟨e, _, hq⟩ | ⟨res2, hq⟩
    · exact ⟨e, hq⟩
    · obtain ⟨e, he⟩ := ih res2
      exact ⟨e, hq.trans he⟩

/-- C8 witness: the entry line `"x zz. // y"` (unknown abbreviation `zz.`,
long enough not to be a heading) classifies to the fatal error and makes the
whole parse fail. -/
theorem C8_amended_witness :
    next_line "x zz. // y".data = .error (.posNotFound "x zz. // y".data) ∧
      ∃ e, parseLinesAux (([] : List (List Char)) ++ "x zz. // y".data :: []) [] =
        .error e :=
  ⟨(C8_amended [] [] "x zz. // y".data (by decide) (by decide) (by decide)).1,
   (C8_amended [] [] "x zz. // y".data (by decide) (by decide) (by decide)).2 []⟩

/-- C10: the classifier unconditionally indexes the first character, so the
empty line is the one input on which it takes the out-of-range branch; the
parser discards zero-length lines before classification, so no parse of any
input text can ever produce that error — the branch is unreachable under
`parse`. -/
theorem C10_empty_index_unreachable :
    next_line [] = .error .indexEmptyLine ∧
      ∀ file : List Char, parse file ≠ .error .indexEmptyLine :=
  ⟨rfl, fun _ => parseLinesAux_never_emptyErr _ []⟩

end DictionaryParser
